import Mathlib

/-!
Verification of the annotation reconciliation engine of the
YOLO-annotation-corrector repository.

The development shallowly embeds the Python source into Lean:

* Python strings become `List Char` (the type alias `Line`); Python's
  `str.split()` (split on whitespace runs, dropping empty pieces) is
  `tokenize`, `str.strip()` is `pyStrip`, `" ".join` is `unwords`.
* Python floats are modelled as rationals (`ℚ`).  All arithmetic the
  claims quantify over (box geometry, IoU, six-decimal formatting) is
  exact at the granularity the specification states (1e-6), so the
  rational model is faithful at that granularity.
* `QRectF` becomes the `Rect` structure carrying the raw `x, y, w, h`
  components exactly as Qt stores them (width/height may be negative or
  zero; Qt does not normalise on construction).  `QRectF.intersected`
  normalises both operands, which `Rect.intersectedQ` reproduces, and
  `QRectF.isNull` tests `w = 0 ∧ h = 0`.
* Mutable per-box dictionaries become explicit records; event handlers
  become state-transition functions on those records.
* Fallible operations (Python exceptions) return `Option`/`Except`.
-/

/-- Python strings, embedded as their character lists. -/
abbrev Line := List Char

/-- One step of `tokenize`: `acc` holds the (reversed) characters of the
token currently being scanned.  Mirrors CPython's `str.split()` with no
separator argument: whitespace runs separate tokens, empty tokens are
dropped. -/
def tokAux : Line → Line → List Line
  | [], acc => if acc = [] then [] else [acc.reverse]
  | c :: cs, acc =>
      if c.isWhitespace then
        if acc = [] then tokAux cs [] else acc.reverse :: tokAux cs []
      else tokAux cs (c :: acc)

/-- Python `line.split()` (no separator): split on whitespace runs. -/
def tokenize (l : Line) : List Line := tokAux l []

/-- Python `" ".join(tokens)`. -/
def unwords : List Line → Line
  | [] => []
  | [t] => t
  | t :: ts => t ++ ' ' :: unwords ts

/-- Python `line.strip()`: drop leading and trailing whitespace. -/
def pyStrip (l : Line) : Line :=
  ((l.dropWhile Char.isWhitespace).reverse.dropWhile Char.isWhitespace).reverse

/-- A token is clean when it is nonempty and carries no whitespace
character; `str.split()` produces exactly such tokens, and only such
tokens are reassembled losslessly by `" ".join`. -/
def CleanTok (t : Line) : Prop := t ≠ [] ∧ ∀ c ∈ t, ¬ c.isWhitespace

instance decCleanTok (t : Line) : Decidable (CleanTok t) :=
  inferInstanceAs (Decidable (t ≠ [] ∧ ∀ c ∈ t, ¬ c.isWhitespace))

/-! ### Numeric formatting and parsing

Python's `float()` on plain decimal literals, `int()` on digit strings,
and the `f"{x:.6f}"` fixed-point formatting used throughout the source.
Floats are modelled as rationals; `f"{x:.6f}"` becomes rounding to the
nearest multiple of `10⁻⁶` (`round6`) followed by exact decimal
printing.  The parsers cover the plain decimal notation this program
itself reads and writes (optional minus sign, digits, optional single
decimal point); scientific notation is outside the formats at play. -/

/-- Numeric value of a digit string (Python `int`-style fold). -/
def natVal (l : Line) : ℕ := l.foldl (fun a c => 10 * a + (c.toNat - 48)) 0

/-- Python `int(token)` for an unsigned digit string. -/
def parseNatTok (l : Line) : Option ℕ :=
  if l ≠ [] ∧ l.all Char.isDigit then some (natVal l) else none

/-- Decimal printing of a natural number (no sign, no leading zeros). -/
def fmtNat (n : ℕ) : Line :=
  if n = 0 then ['0'] else ((Nat.digits 10 n).reverse.map Nat.digitChar)

/-- The integer `⌊q·10⁶ + 1/2⌉` backing six-decimal formatting. -/
def round6i (q : ℚ) : ℤ := ⌊q * 1000000 + 1/2⌋

/-- `q` rounded to the nearest multiple of `10⁻⁶` (the value printed by
`f"{q:.6f}"` and recovered by `float()`). -/
def round6 (q : ℚ) : ℚ := (round6i q : ℚ) / 1000000

/-- The six fractional digits of `f"{x:.6f}"`, zero-padded on the left. -/
def padFrac (fr : ℕ) : Line :=
  List.replicate (6 - (fmtNat fr).length) '0' ++ fmtNat fr

/-- Fixed-point printing of a nonnegative multiple of `10⁻⁶` given as
`m·10⁻⁶`: integer part, a dot, six fraction digits. -/
def fmtFixed6 (m : ℕ) : Line := fmtNat (m / 1000000) ++ '.' :: padFrac (m % 1000000)

/-- Python `f"{q:.6f}"`. -/
def fmt6 (q : ℚ) : Line :=
  if round6i q < 0 then '-' :: fmtFixed6 (round6i q).natAbs
  else fmtFixed6 (round6i q).natAbs

/-- Python `float(token)` on an unsigned decimal literal: digits, an
optional single decimal point, digits; at least one digit overall. -/
def parseUFloat (l : Line) : Option ℚ :=
  let ip := l.takeWhile Char.isDigit
  let rest := l.dropWhile Char.isDigit
  if rest = [] then (if ip = [] then none else some (natVal ip))
  else if rest.head? = some '.' then
    let fp := rest.tail
    if ip = [] ∧ fp = [] then none
    else if fp.all Char.isDigit then
      some ((natVal ip : ℚ) + (natVal fp : ℚ) / (10 : ℚ) ^ fp.length)
    else none
  else none

/-- Python `float(token)` on a decimal literal with optional minus sign. -/
def parseFloatTok (l : Line) : Option ℚ :=
  if l = [] then none
  else if l.head? = some '-' then (parseUFloat l.tail).map (fun q => -q)
  else parseUFloat l

/-! ### Geometry: `QRectF` and `iou` (src/window.py lines 46-60)

A `Rect` stores the raw `x, y, w, h` components of a `QRectF`; Qt does
not normalise on construction, so `w`/`h` may be zero or negative.
`QRectF.intersected` (Qt's `operator&`) normalises both operands, returns
the default-constructed null rectangle when either operand is empty in a
dimension or the normalised spans do not strictly overlap, and otherwise
returns the positive-size overlap.  `QRectF.isNull` is `w = 0 ∧ h = 0`;
`left/top/right/bottom/width/height` return the raw components. -/

structure Rect where
  x : ℚ
  y : ℚ
  w : ℚ
  h : ℚ
deriving DecidableEq, Repr

/-- The default-constructed `QRectF()`. -/
def Rect.null : Rect := ⟨0, 0, 0, 0⟩

/-- `QRectF.isNull()`. -/
def Rect.isNull (r : Rect) : Bool := r.w = 0 ∧ r.h = 0

/-- `QRectF.intersected` / `operator&`: normalised intersection. -/
def Rect.intersectedQ (a b : Rect) : Rect :=
  let l1 := a.x + min a.w 0; let r1 := a.x + max a.w 0
  let t1 := a.y + min a.h 0; let b1 := a.y + max a.h 0
  let l2 := b.x + min b.w 0; let r2 := b.x + max b.w 0
  let t2 := b.y + min b.h 0; let b2 := b.y + max b.h 0
  if l1 = r1 ∨ t1 = b1 ∨ l2 = r2 ∨ t2 = b2 then Rect.null
  else if r2 ≤ l1 ∨ r1 ≤ l2 then Rect.null
  else if b2 ≤ t1 ∨ b1 ≤ t2 then Rect.null
  else ⟨max l1 l2, max t1 t2, min r1 r2 - max l1 l2, min b1 b2 - max t1 t2⟩

/-- `iou(rect1, rect2)` from src/window.py lines 46-60: intersection
area over union area, with an early 0.0 for a null intersection and a
guard against a zero union.  Union area uses the raw (possibly
negative) widths and heights, exactly as `rect.width() * rect.height()`
does. -/
def iou (rect1 rect2 : Rect) : ℚ :=
  let inter := rect1.intersectedQ rect2
  if inter.isNull then 0
  else
    let interArea := inter.w * inter.h
    let unionArea := rect1.w * rect1.h + rect2.w * rect2.h - interArea
    if unionArea = 0 then 0 else interArea / unionArea

/-! ### Reconciliation engine state (src/window.py, src/graphics_items.py)

The per-box dictionaries built in src/annotation_corrector.py lines
127-128 ({"line", "conf", "accepted"} and {"line", "kept"}) and the
graphics items mirroring them.  The pen colour distinguishes the two
rendering states set by `flag_predictions`: amber = QPen(QColor(255,
191, 0), 2) for a disagreement, red = QPen(QColor("red"), 2). -/

/-- Rendering pen of a prediction box. -/
inductive Pen where
  | amber : Pen
  | red : Pen
deriving DecidableEq, Repr

/-- A ground-truth box item (`GTBox`): its label line, current scene
rectangle and kept flag. -/
structure GTItem where
  line : Line
  rect : Rect
  kept : Bool
deriving DecidableEq, Repr

/-- A prediction box item (`PredBox`): its label line, current scene
rectangle, confidence, accepted flag and current pen. -/
structure PredItem where
  line : Line
  rect : Rect
  conf : ℚ
  accepted : Bool
  pen : Pen
deriving DecidableEq, Repr

/-- `line.split()[0]`: the class-id token of a label line.  The program
only indexes `split()` on the non-blank lines it stores, for which the
token list is nonempty; the `[]` default is never reached there. -/
def firstTok (l : Line) : Line := (tokenize l).headD []

/-- The inner loop of `flag_predictions` (src/window.py lines 223-231):
running best IoU (starting at 0.0) and best ground-truth item (starting
at None); unkept labels are skipped; the best is replaced only on a
strict improvement. -/
def bestLoop (p : PredItem) : List GTItem → ℚ → Option GTItem → ℚ × Option GTItem
  | [], best, bg => (best, bg)
  | g :: rest, best, bg =>
      if g.kept then
        let i := iou p.rect g.rect
        if best < i then bestLoop p rest i (some g) else bestLoop p rest best bg
      else bestLoop p rest best bg

/-- The disagreement test of src/window.py line 232:
`best_iou == 0 or (best_gt and p.line.split()[0] != best_gt.line.split()[0])`. -/
def disagreeB (p : PredItem) (gts : List GTItem) : Bool :=
  let r := bestLoop p gts 0 none
  decide (r.1 = 0) ||
    (match r.2 with
     | some g => decide (firstTok p.line ≠ firstTok g.line)
     | none => false)

/-- The scene state `flag_predictions` operates on: the prediction items
and ground-truth items of the currently displayed image. -/
structure WinState where
  preds : List PredItem
  gts : List GTItem
deriving DecidableEq, Repr

/-- `AnnotationWindow.flag_predictions` (src/window.py lines 219-235):
repaint every prediction amber (disagreement) or red (match); nothing
else is touched. -/
def flag_predictions (s : WinState) : WinState :=
  { s with preds := s.preds.map (fun p =>
      { p with pen := if disagreeB p s.gts then Pen.amber else Pen.red }) }

/-- The specification's reading of the flag rule (§4.4): a prediction is
a disagreement when no kept label overlaps it (best IoU 0), or when the
best-matching kept label — maximum IoU, ties broken by the first in
stored order, unkept labels excluded — has a different class token. -/
def SpecDisagree (p : PredItem) (gts : List GTItem) : Prop :=
  (∀ g ∈ gts, g.kept = true → iou p.rect g.rect ≤ 0) ∨
  (∃ l₁ g l₂, gts = l₁ ++ g :: l₂ ∧ g.kept = true ∧ 0 < iou p.rect g.rect ∧
    (∀ g' ∈ l₁, g'.kept = true → iou p.rect g'.rect < iou p.rect g.rect) ∧
    (∀ g' ∈ l₂, g'.kept = true → iou p.rect g'.rect ≤ iou p.rect g.rect) ∧
    firstTok p.line ≠ firstTok g.line)

/-! ### Queueing decision (src/annotation_corrector.py lines 106-129) -/

/-- The skip test of src/annotation_corrector.py line 123:
`set(line for line, _ in pred_lines) == set(label_lines)`. -/
def sets_match (pred_lines : List (Line × ℚ)) (label_lines : List Line) : Bool :=
  decide ((pred_lines.map Prod.fst).toFinset = label_lines.toFinset)

/-- An image is queued for review exactly when the skip test fails
(the `continue` on line 124 is not taken). -/
def should_queue (pred_lines : List (Line × ℚ)) (label_lines : List Line) : Bool :=
  ! sets_match pred_lines label_lines

/-- The main loop's queue construction: images whose prediction and
label line sets already agree are dropped, the rest are kept in input
order.  Each entry is an image's `(pred_lines, label_lines)` pair. -/
def build_queue (items : List (List (Line × ℚ) × List Line)) :
    List (List (Line × ℚ) × List Line) :=
  items.filter (fun it => should_queue it.1 it.2)

/-! ### Session state and final-line collection (src/window.py 272-277) -/

/-- One `{"line": ..., "kept": ...}` dictionary from
src/annotation_corrector.py line 128. -/
structure LabelSt where
  line : Line
  kept : Bool
deriving DecidableEq, Repr

/-- One `{"line": ..., "conf": ..., "accepted": ...}` dictionary from
src/annotation_corrector.py line 127. -/
structure PredSt where
  line : Line
  conf : ℚ
  accepted : Bool
deriving DecidableEq, Repr

/-- The per-image session state that `collect_lines` reads: the stored
label dictionaries and prediction dictionaries of one image. -/
structure Session where
  labels : List LabelSt
  preds : List PredSt
deriving DecidableEq, Repr

/-- `AnnotationWindow.collect_lines` (src/window.py lines 272-277): the
two list comprehensions, kept ground truth first, then accepted
predictions, each in stored order. -/
def collect_lines (s : Session) : List Line :=
  (s.labels.filterMap (fun l => if l.kept then some l.line else none)) ++
  (s.preds.filterMap (fun p => if p.accepted then some p.line else none))

/-- The specification's first half of the contract: the kept labels'
lines in stored order. -/
def keptLabelLines (s : Session) : List Line :=
  (s.labels.filter (fun l => l.kept)).map LabelSt.line

/-- The specification's second half of the contract: the accepted
predictions' lines in stored order. -/
def acceptedPredLines (s : Session) : List Line :=
  (s.preds.filter (fun p => p.accepted)).map PredSt.line

/-! ### Geometry/format codec (src/window.py 33-43, src/graphics_items.py 28-35) -/

/-- A parsed five-field YOLO record: class id and the four normalized
box fields. -/
structure BoxRecord where
  cls : ℕ
  cx : ℚ
  cy : ℚ
  w : ℚ
  h : ℚ
deriving DecidableEq, Repr

/-- The arithmetic core of `yolo_line_to_rect` (src/window.py lines
40-43): normalized record to pixel rectangle. -/
def recordToRect (r : BoxRecord) (img_w img_h : ℚ) : Rect :=
  ⟨(r.cx - r.w / 2) * img_w, (r.cy - r.h / 2) * img_h, r.w * img_w, r.h * img_h⟩

/-- `yolo_line_to_rect(line, img_w, img_h)` (src/window.py lines 33-43).
A token count other than 5 returns the default-constructed empty
`QRectF()`; a failing `float()` raises an uncaught `ValueError`,
modelled as `none`.  The class token is ignored (`_`). -/
def yolo_line_to_rect (l : Line) (img_w img_h : ℚ) : Option Rect :=
  match tokenize l with
  | [_, xc, yc, w, h] =>
      match parseFloatTok xc, parseFloatTok yc, parseFloatTok w, parseFloatTok h with
      | some xv, some yv, some wv, some hv =>
          some ⟨(xv - wv / 2) * img_w, (yv - hv / 2) * img_h, wv * img_w, hv * img_h⟩
      | _, _, _, _ => none
  | _ => some Rect.null

/-- `rect_to_yolo_line(rect, cls_id, img_w, img_h)`
(src/graphics_items.py lines 28-35): the f-string
`f"{cls_id} {xc:.6f} {yc:.6f} {w:.6f} {h:.6f}"` with
`xc = (rect.left() + rect.width()/2) / img_w` and so on. -/
def rect_to_yolo_line (rect : Rect) (cls_id : ℕ) (img_w img_h : ℚ) : Line :=
  unwords [fmtNat cls_id,
    fmt6 ((rect.x + rect.w / 2) / img_w),
    fmt6 ((rect.y + rect.h / 2) / img_h),
    fmt6 (rect.w / img_w),
    fmt6 (rect.h / img_h)]

/-- Parsing one label line into a full record, as the source does it:
`int(line.split()[0])` for the class (src/graphics_items.py line 63) and
`map(float, ...)` over the remaining four fields (src/window.py line
40); exactly five whitespace tokens are required, and a failing numeric
parse yields `none`. -/
def parse_line (l : Line) : Option BoxRecord :=
  match tokenize l with
  | [c, xc, yc, w, h] =>
      match parseNatTok c, parseFloatTok xc, parseFloatTok yc, parseFloatTok w, parseFloatTok h with
      | some ci, some xv, some yv, some wv, some hv => some ⟨ci, xv, yv, wv, hv⟩
      | _, _, _, _, _ => none
  | _ => none

/-! ### Prediction cache (src/annotation_corrector.py lines 106-121) -/

/-- Replay-mode treatment of one raw side-file line (lines 110-116):
strip, skip if blank, split; with 6 or more tokens the 6th is the
confidence (`float(parts[5])`, an uncaught exception on a bad token,
modelled as `Except.error`), otherwise the confidence is 0.0; the box
line is `" ".join(parts[:5])`. -/
def replay_line (raw : Line) : Except Unit (Option (Line × ℚ)) :=
  let s := pyStrip raw
  if s = [] then Except.ok none
  else
    let parts := tokenize s
    if 6 ≤ parts.length then
      match parseFloatTok (parts.getD 5 []) with
      | some c => Except.ok (some (unwords (parts.take 5), c))
      | none => Except.error ()
    else Except.ok (some (unwords (parts.take 5), 0))

/-- Replay-mode parse of a whole side file (the `for line in f` loop). -/
def replay_file : List Line → Except Unit (List (Line × ℚ))
  | [] => Except.ok []
  | raw :: rest =>
      match replay_line raw with
      | Except.error e => Except.error e
      | Except.ok none => replay_file rest
      | Except.ok (some pc) =>
          match replay_file rest with
          | Except.error e => Except.error e
          | Except.ok l => Except.ok (pc :: l)

/-- Replay mode for one image (lines 107-116): an absent side file
(`none`) yields the empty prediction list, not an error. -/
def replay_mode (file : Option (List Line)) : Except Unit (List (Line × ℚ)) :=
  match file with
  | none => Except.ok []
  | some lines => replay_file lines

/-- Live-mode side-file write (lines 119-121): one line
`f"{line} {conf:.6f}"` per prediction, in order. -/
def write_side_file (preds : List (Line × ℚ)) : List Line :=
  preds.map (fun p => p.1 ++ ' ' :: fmt6 p.2)

/-- A box line as live mode produces it: exactly five clean
(nonempty, whitespace-free) tokens joined by single spaces — the shape
of every line `predict()` emits (src/inference.py line 84). -/
def WellFormed5 (l : Line) : Prop :=
  ∃ ts : List Line, ts.length = 5 ∧ (∀ t ∈ ts, CleanTok t) ∧ l = unwords ts

/-! ### Label-store seeding (src/annotation_corrector.py lines 64-71) -/

/-- A directory as a partial map from file names to file contents. -/
def DirFS := String → Option String

/-- Does a file name match the `*.txt` glob pattern? -/
def isTxtName (n : String) : Bool :=
  match n.toList.reverse with
  | 't' :: 'x' :: 't' :: '.' :: _ => true
  | _ => false

/-- `seed_corrected_directory` (src/annotation_corrector.py lines
65-71): for every `*.txt` file of the source directory (given as its
name/content listing), copy it into the target directory under the same
name unless a file of that name already exists there.  The existence
test (`os.path.exists(dst)`) consults the live target, so files copied
earlier in the same loop are seen. -/
def seed_corrected_directory (src_files : List (String × String)) (tgt : DirFS) : DirFS :=
  src_files.foldl
    (fun acc f =>
      if isTxtName f.1 ∧ acc f.1 = none then
        fun n => if n = f.1 then some f.2 else acc n
      else acc)
    tgt

/-! ### Box items and mouse-press toggling (src/graphics_items.py) -/

/-- Which resize handle a press landed on. -/
inductive HandleKind where
  | topleft : HandleKind
  | bottomright : HandleKind
deriving DecidableEq, Repr

/-- `_start_resize` (src/graphics_items.py lines 84-93 and 190-199):
a press within `HANDLE_SIZE = 10` of the top-left corner starts a
top-left resize, within 10 of the bottom-right corner a bottom-right
resize, otherwise no resize.  `r.left()/top()/right()/bottom()` are the
raw `x, y, x+w, y+h`. -/
def startResize (r : Rect) (pos : ℚ × ℚ) : Option HandleKind :=
  if |pos.1 - r.x| ≤ 10 ∧ |pos.2 - r.y| ≤ 10 then some HandleKind.topleft
  else if |pos.1 - (r.x + r.w)| ≤ 10 ∧ |pos.2 - (r.y + r.h)| ≤ 10 then
    some HandleKind.bottomright
  else none

/-- A `PredBox` graphics item together with the shared state dictionary
it mutates: `state` is the `{"line","conf","accepted"}` dict, the
remaining fields are the item's own attributes. -/
structure PredBoxItem where
  state : PredSt
  line : Line
  conf : ℚ
  accepted : Bool
  rect : Rect
  resizing : Option HandleKind
deriving DecidableEq, Repr

/-- A `GTBox` graphics item together with its shared `{"line","kept"}`
state dictionary. -/
structure GTBoxItem where
  state : LabelSt
  line : Line
  kept : Bool
  rect : Rect
  resizing : Option HandleKind
deriving DecidableEq, Repr

/-- `PredBox.mousePressEvent` (src/graphics_items.py lines 120-132): if
the press hits a resize handle, only `_resizing` changes; otherwise the
accepted flag is flipped and the new value written into the shared
state dict (`self.state["accepted"] = self.accepted`).  Neither branch
touches the line or the rectangle. -/
def predMousePress (b : PredBoxItem) (pos : ℚ × ℚ) : PredBoxItem :=
  match startResize b.rect pos with
  | some k => { b with resizing := some k }
  | none =>
      let na := ! b.accepted
      { b with
        resizing := none
        accepted := na
        state := { b.state with accepted := na } }

/-- `GTBox.mousePressEvent` (src/graphics_items.py lines 226-238): same
shape for the kept flag.  (The trailing `flag_predictions()` call
repaints other items' pens; the box's own state is exactly this.) -/
def gtMousePress (b : GTBoxItem) (pos : ℚ × ℚ) : GTBoxItem :=
  match startResize b.rect pos with
  | some k => { b with resizing := some k }
  | none =>
      let nk := ! b.kept
      { b with
        resizing := none
        kept := nk
        state := { b.state with kept := nk } }

/-- A concrete prediction item used to instantiate the matching
theorems: class token `1`, unit confidence box at the origin. -/
def wPred : PredItem :=
  ⟨("1 0.5 0.5 0.2 0.2").toList, ⟨0, 0, 10, 10⟩, 9/10, false, Pen.red⟩

/-- A concrete unkept ground-truth item fully overlapping `wPred` with
the same class. -/
def wGtUnkept : GTItem := ⟨("1 0.5 0.5 0.2 0.2").toList, ⟨0, 0, 10, 10⟩, false⟩

/-- A concrete one-prediction, one-unkept-label scene. -/
def wWin : WinState := ⟨[wPred], [wGtUnkept]⟩

/-- A concrete target directory holding one reviewer-edited file. -/
def wTgt : DirFS := fun n => if n = "a.txt" then some "edited" else none

/-- A concrete prediction box at rest, with its shared dictionary in
sync, for instantiating the toggle theorem. -/
def wPredBox : PredBoxItem :=
  ⟨⟨("0 0.5 0.5 0.2 0.2").toList, 9/10, false⟩,
   ("0 0.5 0.5 0.2 0.2").toList, 9/10, false, ⟨40, 40, 20, 20⟩, none⟩

/-- A concrete ground-truth box at rest for the same purpose. -/
def wGtBox : GTBoxItem :=
  ⟨⟨("0 0.5 0.5 0.2 0.2").toList, true⟩,
   ("0 0.5 0.5 0.2 0.2").toList, true, ⟨40, 40, 20, 20⟩, none⟩

/-! ### Theorems -/

theorem tokAux_ws_all {w : Line} (hw : ∀ c ∈ w, c.isWhitespace) (acc : Line) :
    tokAux w acc = if acc = [] then [] else [acc.reverse] := by
  induction w generalizing acc with
  | nil => rfl
  | cons c cs ih =>
      have hc : c.isWhitespace := hw c (List.mem_cons_self c cs)
      have hcs : ∀ x ∈ cs, x.isWhitespace := fun x hx => hw x (List.mem_cons_of_mem c hx)
      by_cases ha : acc = []
      · simp [tokAux, hc, ha, ih hcs]
      · simp [tokAux, hc, ha, ih hcs]

theorem tokAux_append_ws {w : Line} (hw : ∀ c ∈ w, c.isWhitespace) :
    ∀ (m acc : Line), tokAux (m ++ w) acc = tokAux m acc := by
  intro m
  induction m with
  | nil =>
      intro acc
      simpa [tokAux] using tokAux_ws_all hw acc
  | cons c cs ih =>
      intro acc
      by_cases hc : c.isWhitespace
      · by_cases ha : acc = [] <;> simp [tokAux, hc, ha, ih]
      · simp [tokAux, hc, ih]

theorem tokAux_clean_run {t : Line} (ht : ∀ c ∈ t, ¬ c.isWhitespace) :
    ∀ (r acc : Line), tokAux (t ++ r) acc = tokAux r (t.reverse ++ acc) := by
  induction t with
  | nil => intro r acc; simp
  | cons c cs ih =>
      intro r acc
      have hc : ¬ c.isWhitespace := ht c (List.mem_cons_self c cs)
      have hcs : ∀ x ∈ cs, ¬ x.isWhitespace := fun x hx => ht x (List.mem_cons_of_mem c hx)
      simp [tokAux, hc, ih hcs]

theorem tokenize_clean_cons {t r : Line} (ht : CleanTok t) :
    tokenize (t ++ ' ' :: r) = t :: tokenize r := by
  unfold tokenize
  rw [tokAux_clean_run ht.2]
  have hws : (' ').isWhitespace := by decide
  simp [tokAux, hws, ht.1]

theorem tokenize_clean_single {t : Line} (ht : CleanTok t) :
    tokenize t = [t] := by
  unfold tokenize
  have := tokAux_clean_run ht.2 [] []
  simpa [tokAux, List.reverse_eq_nil_iff, ht.1] using this

theorem tokenize_unwords {ts : List Line} (h : ∀ t ∈ ts, CleanTok t) (hne : ts ≠ []) :
    tokenize (unwords ts) = ts := by
  induction ts with
  | nil => exact absurd rfl hne
  | cons t ts ih =>
      cases ts with
      | nil => exact tokenize_clean_single (h t (List.mem_cons_self _ _))
      | cons u us =>
          have ht : CleanTok t := h t (List.mem_cons_self _ _)
          have hrest : ∀ x ∈ u :: us, CleanTok x := fun x hx => h x (List.mem_cons_of_mem _ hx)
          have : unwords (t :: u :: us) = t ++ ' ' :: unwords (u :: us) := rfl
          rw [this, tokenize_clean_cons ht, ih hrest (by simp)]

theorem tokAux_eq_nil {l acc : Line} (h : tokAux l acc = []) :
    acc = [] ∧ ∀ c ∈ l, c.isWhitespace := by
  induction l generalizing acc with
  | nil =>
      refine ⟨?_, by simp⟩
      by_contra ha
      simp [tokAux, ha] at h
  | cons c cs ih =>
      by_cases hc : c.isWhitespace
      · have hacc : acc = [] := by
          by_contra ha
          simp [tokAux, hc, ha] at h
        subst hacc
        simp only [tokAux, hc, if_true, if_pos rfl] at h
        exact ⟨rfl, by
          intro x hx
          rcases List.mem_cons.mp hx with rfl | hmem
          · exact hc
          · exact (ih h).2 x hmem⟩
      · exfalso
        simp only [tokAux, hc, if_neg] at h
        have := (ih h).1
        simp at this

theorem tokenize_eq_nil_iff (l : Line) :
    tokenize l = [] ↔ ∀ c ∈ l, c.isWhitespace := by
  constructor
  · intro h
    exact (tokAux_eq_nil h).2
  · intro h
    unfold tokenize
    simpa using tokAux_ws_all h []

theorem tokenize_dropWhile (l : Line) :
    tokenize (l.dropWhile Char.isWhitespace) = tokenize l := by
  induction l with
  | nil => rfl
  | cons c cs ih =>
      by_cases hc : c.isWhitespace
      · rw [List.dropWhile_cons_of_pos (by simpa using hc)]
        rw [ih]
        simp [tokenize, tokAux, hc]
      · rw [List.dropWhile_cons_of_neg (by simpa using hc)]

theorem tokenize_pyStrip (l : Line) : tokenize (pyStrip l) = tokenize l := by
  unfold pyStrip
  rw [← tokenize_dropWhile l]
  set m := l.dropWhile Char.isWhitespace with hm
  have hsplit : m = (m.reverse.dropWhile Char.isWhitespace).reverse ++
      (m.reverse.takeWhile Char.isWhitespace).reverse := by
    conv_lhs => rw [← List.reverse_reverse m]
    rw [← List.reverse_append, List.takeWhile_append_dropWhile]
  have hws : ∀ c ∈ (m.reverse.takeWhile Char.isWhitespace).reverse, c.isWhitespace := by
    intro c hc
    rw [List.mem_reverse] at hc
    exact List.mem_takeWhile_imp hc
  conv_rhs => rw [hsplit]
  unfold tokenize
  rw [tokAux_append_ws hws]

theorem pyStrip_eq_nil_iff (l : Line) :
    pyStrip l = [] ↔ ∀ c ∈ l, c.isWhitespace := by
  constructor
  · intro h
    have := tokenize_pyStrip l
    rw [h] at this
    exact (tokenize_eq_nil_iff l).mp (by simpa [tokenize, tokAux] using this.symm)
  · intro h
    unfold pyStrip
    have : l.dropWhile Char.isWhitespace = [] := List.dropWhile_eq_nil_iff.mpr (by simpa using h)
    simp [this]

theorem isDigit_not_isWhitespace {c : Char} (h : c.isDigit) : ¬ c.isWhitespace := by
  intro hw
  have hd := h
  simp only [Char.isDigit] at hd
  simp only [Char.isWhitespace] at hw
  rcases (by simpa using hw : ((c = ' ' ∨ c = '\t') ∨ c = '\r') ∨ c = '\n') with
    ((rfl | rfl) | rfl) | rfl <;> simp at hd

theorem digitChar_isDigit {d : ℕ} (h : d < 10) : (Nat.digitChar d).isDigit := by
  interval_cases d <;> decide

theorem digitChar_val {d : ℕ} (h : d < 10) : (Nat.digitChar d).toNat - 48 = d := by
  interval_cases d <;> decide

theorem fmtNat_all_digits (n : ℕ) : ∀ c ∈ fmtNat n, c.isDigit := by
  intro c hc
  unfold fmtNat at hc
  by_cases h : n = 0
  · simp [h] at hc
    subst hc; decide
  · simp only [h, if_false, List.mem_map, List.mem_reverse] at hc
    obtain ⟨d, hd, rfl⟩ := hc
    exact digitChar_isDigit (Nat.digits_lt_base (by norm_num) hd)

theorem fmtNat_ne_nil (n : ℕ) : fmtNat n ≠ [] := by
  unfold fmtNat
  by_cases h : n = 0
  · simp [h]
  · simp only [h, if_false, ne_eq, List.map_eq_nil_iff, List.reverse_eq_nil_iff]
    exact Nat.digits_ne_nil_iff_ne_zero.mpr h

theorem natVal_fmtNat (n : ℕ) : natVal (fmtNat n) = n := by
  by_cases h : n = 0
  · subst h; decide
  · unfold fmtNat natVal
    simp only [h, if_false]
    rw [List.foldl_map, List.foldl_reverse]
    have hlt : ∀ d ∈ Nat.digits 10 n, d < 10 :=
      fun d hd => Nat.digits_lt_base (by norm_num) hd
    have : ∀ l : List ℕ, (∀ d ∈ l, d < 10) →
        l.foldr (fun x y => 10 * y + ((Nat.digitChar x).toNat - 48)) 0 = Nat.ofDigits 10 l := by
      intro l
      induction l with
      | nil => intro _; simp [Nat.ofDigits]
      | cons d ds ih =>
          intro hl
          have hd : d < 10 := hl d (List.mem_cons_self _ _)
          have hds := ih (fun x hx => hl x (List.mem_cons_of_mem _ hx))
          simp only [List.foldr_cons, hds, Nat.ofDigits_cons, digitChar_val hd]
          ring
    rw [this _ hlt, Nat.ofDigits_digits]

theorem parseNatTok_fmtNat (n : ℕ) : parseNatTok (fmtNat n) = some n := by
  unfold parseNatTok
  rw [if_pos ⟨fmtNat_ne_nil n, List.all_eq_true.mpr (fun c hc => fmtNat_all_digits n c hc)⟩,
    natVal_fmtNat]

theorem fmtNat_length_le {n k : ℕ} (h : n < 10 ^ k) (hk : 1 ≤ k) :
    (fmtNat n).length ≤ k := by
  unfold fmtNat
  by_cases h0 : n = 0
  · simpa [h0] using hk
  · simp only [h0, if_false, List.length_map, List.length_reverse]
    rw [Nat.digits_len 10 n (by norm_num) h0]
    have := Nat.log_lt_of_lt_pow h0 h
    omega

theorem takeWhile_append_cons {p : Char → Bool} {l1 l2 : Line} {x : Char}
    (h1 : ∀ c ∈ l1, p c) (hx : ¬ p x) :
    (l1 ++ x :: l2).takeWhile p = l1 ∧ (l1 ++ x :: l2).dropWhile p = x :: l2 := by
  induction l1 with
  | nil => simp [List.takeWhile_cons, List.dropWhile_cons, hx]
  | cons c cs ih =>
      have hc : p c := h1 c (List.mem_cons_self _ _)
      have := ih (fun d hd => h1 d (List.mem_cons_of_mem _ hd))
      simp [List.takeWhile_cons, List.dropWhile_cons, hc, this.1, this.2]

theorem natVal_replicate_zero_append (k : ℕ) (l : Line) :
    natVal (List.replicate k '0' ++ l) = natVal l := by
  unfold natVal
  rw [List.foldl_append]
  congr 1
  induction k with
  | zero => rfl
  | succ n ih => simpa [List.replicate_succ] using ih

theorem padFrac_all_digits (fr : ℕ) : ∀ c ∈ padFrac fr, c.isDigit := by
  intro c hc
  unfold padFrac at hc
  rcases List.mem_append.mp hc with h | h
  · rw [List.eq_of_mem_replicate h]; decide
  · exact fmtNat_all_digits fr c h

theorem padFrac_length {fr : ℕ} (h : fr < 1000000) : (padFrac fr).length = 6 := by
  unfold padFrac
  have hle : (fmtNat fr).length ≤ 6 :=
    fmtNat_length_le (show fr < 10 ^ 6 by simpa using h) (by norm_num)
  simp only [List.length_append, List.length_replicate]
  omega

theorem natVal_padFrac (fr : ℕ) : natVal (padFrac fr) = fr := by
  unfold padFrac
  rw [natVal_replicate_zero_append, natVal_fmtNat]

theorem parseUFloat_fmtFixed6 (m : ℕ) :
    parseUFloat (fmtFixed6 m) = some ((m : ℚ) / 1000000) := by
  have hsplit := @takeWhile_append_cons Char.isDigit
    (fmtNat (m / 1000000)) (padFrac (m % 1000000)) '.'
    (fmtNat_all_digits _) (by decide)
  unfold fmtFixed6 parseUFloat
  simp only [hsplit.1, hsplit.2]
  have hmod : m % 1000000 < 1000000 := Nat.mod_lt _ (by norm_num)
  have hne : ¬ (fmtNat (m / 1000000) = [] ∧ padFrac (m % 1000000) = []) := by
    rintro ⟨h, -⟩
    exact fmtNat_ne_nil _ h
  rw [if_neg (by simp), if_pos (by simp), List.tail_cons, if_neg hne,
    if_pos (List.all_eq_true.mpr (padFrac_all_digits _)),
    natVal_fmtNat, natVal_padFrac, padFrac_length hmod]
  congr 1
  have hm : m / 1000000 * 1000000 + m % 1000000 = m := by omega
  have h6 : ((10 : ℚ) ^ 6) = 1000000 := by norm_num
  rw [h6]
  field_simp
  exact_mod_cast hm

theorem isDigit_ne_dash {c : Char} (h : c.isDigit) : ¬ c = '-' := by
  rintro rfl
  simp [Char.isDigit] at h

theorem parseFloatTok_fmtFixed6 (m : ℕ) :
    parseFloatTok (fmtFixed6 m) = some ((m : ℚ) / 1000000) := by
  rcases hfmt : fmtNat (m / 1000000) with _ | ⟨c, cs⟩
  · exact absurd hfmt (fmtNat_ne_nil _)
  · have hcd : c.isDigit := by
      apply fmtNat_all_digits (m / 1000000)
      rw [hfmt]; exact List.mem_cons_self _ _
    have hform : fmtFixed6 m = c :: (cs ++ '.' :: padFrac (m % 1000000)) := by
      unfold fmtFixed6
      rw [hfmt]; rfl
    unfold parseFloatTok
    rw [if_neg (by rw [hform]; simp), if_neg ?hdash, parseUFloat_fmtFixed6]
    case hdash =>
      rw [hform]
      simp only [List.head?_cons, Option.some.injEq]
      exact isDigit_ne_dash hcd

theorem parseFloatTok_fmt6 (q : ℚ) : parseFloatTok (fmt6 q) = some (round6 q) := by
  unfold fmt6 round6
  by_cases h : round6i q < 0
  · rw [if_pos h]
    show parseFloatTok ('-' :: fmtFixed6 (round6i q).natAbs) = _
    unfold parseFloatTok
    rw [if_neg (by simp), if_pos (by simp), List.tail_cons, parseUFloat_fmtFixed6]
    simp only [Option.map_some']
    congr 1
    rw [← neg_div]
    congr 1
    rw [Int.cast_natAbs, abs_of_neg h]
    push_cast
    ring
  · rw [if_neg h, parseFloatTok_fmtFixed6]
    congr 2
    rw [Int.cast_natAbs, abs_of_nonneg (le_of_not_lt h)]

theorem fmt6_clean (q : ℚ) : CleanTok (fmt6 q) := by
  constructor
  · unfold fmt6 fmtFixed6
    by_cases h : round6i q < 0
    · simp [h]
    · rw [if_neg h]
      intro hcontra
      exact fmtNat_ne_nil _ (List.append_eq_nil.mp hcontra).1
  · intro c hc
    have hfix : ∀ d ∈ fmtFixed6 (round6i q).natAbs, ¬ d.isWhitespace := by
      intro d hd
      unfold fmtFixed6 at hd
      rcases List.mem_append.mp hd with h | h
      · exact isDigit_not_isWhitespace (fmtNat_all_digits _ d h)
      · rcases List.mem_cons.mp h with rfl | h
        · decide
        · exact isDigit_not_isWhitespace (padFrac_all_digits _ d h)
    unfold fmt6 at hc
    by_cases h : round6i q < 0
    · rw [if_pos h] at hc
      rcases List.mem_cons.mp hc with rfl | hc
      · decide
      · exact hfix c hc
    · rw [if_neg h] at hc
      exact hfix c hc

theorem round6_close (q : ℚ) : |round6 q - q| ≤ 1 / 1000000 := by
  unfold round6 round6i
  have h1 : (⌊q * 1000000 + 1/2⌋ : ℚ) ≤ q * 1000000 + 1/2 := Int.floor_le _
  have h2 : q * 1000000 + 1/2 < (⌊q * 1000000 + 1/2⌋ : ℚ) + 1 := Int.lt_floor_add_one _
  rw [abs_sub_le_iff]
  constructor <;> [skip; skip] <;> nlinarith

theorem intersectedQ_nonneg_spec (a b : Rect)
    (ha : 0 ≤ a.w) (hb : 0 ≤ a.h) (hc : 0 ≤ b.w) (hd : 0 ≤ b.h) :
    a.intersectedQ b = Rect.null ∨
    (a.intersectedQ b =
        ⟨max a.x b.x, max a.y b.y,
         min (a.x + a.w) (b.x + b.w) - max a.x b.x,
         min (a.y + a.h) (b.y + b.h) - max a.y b.y⟩ ∧
      max a.x b.x < min (a.x + a.w) (b.x + b.w) ∧
      max a.y b.y < min (a.y + a.h) (b.y + b.h)) := by
  unfold Rect.intersectedQ
  simp only [min_eq_right ha, min_eq_right hb, min_eq_right hc, min_eq_right hd,
    max_eq_left ha, max_eq_left hb, max_eq_left hc, max_eq_left hd, add_zero]
  split_ifs with h1 h2 h3
  · exact Or.inl rfl
  · exact Or.inl rfl
  · exact Or.inl rfl
  · push_neg at h1 h2 h3
    have haw : 0 < a.w := ha.lt_of_ne (fun h => h1.1 (by rw [← h, add_zero]))
    have hah : 0 < a.h := hb.lt_of_ne (fun h => h1.2.1 (by rw [← h, add_zero]))
    have hbw : 0 < b.w := hc.lt_of_ne (fun h => h1.2.2.1 (by rw [← h, add_zero]))
    have hbh : 0 < b.h := hd.lt_of_ne (fun h => h1.2.2.2 (by rw [← h, add_zero]))
    refine Or.inr ⟨rfl, ?_, ?_⟩
    · exact max_lt_iff.mpr ⟨lt_min_iff.mpr ⟨by linarith, h2.1⟩,
        lt_min_iff.mpr ⟨h2.2, by linarith⟩⟩
    · exact max_lt_iff.mpr ⟨lt_min_iff.mpr ⟨by linarith, h3.1⟩,
        lt_min_iff.mpr ⟨h3.2, by linarith⟩⟩

theorem iou_nonneg_le_one (a b : Rect)
    (ha : 0 ≤ a.w) (hb : 0 ≤ a.h) (hc : 0 ≤ b.w) (hd : 0 ≤ b.h) :
    0 ≤ iou a b ∧ iou a b ≤ 1 := by
  unfold iou
  rcases intersectedQ_nonneg_spec a b ha hb hc hd with hnull | ⟨heq, hx, hy⟩
  · rw [hnull]
    simp [Rect.isNull, Rect.null]
  · rw [heq]
    have hwpos : (0 : ℚ) < min (a.x + a.w) (b.x + b.w) - max a.x b.x := by linarith
    have hhpos : (0 : ℚ) < min (a.y + a.h) (b.y + b.h) - max a.y b.y := by linarith
    have hnotnull : ¬ (Rect.isNull
        ⟨max a.x b.x, max a.y b.y,
         min (a.x + a.w) (b.x + b.w) - max a.x b.x,
         min (a.y + a.h) (b.y + b.h) - max a.y b.y⟩ = true) := by
      simp only [Rect.isNull, decide_eq_true_eq]
      rintro ⟨h1, -⟩
      exact absurd h1 (ne_of_gt hwpos)
    rw [if_neg hnotnull]
    set iw := min (a.x + a.w) (b.x + b.w) - max a.x b.x with hiw
    set ih := min (a.y + a.h) (b.y + b.h) - max a.y b.y with hih
    have hiwa : iw ≤ a.w := by
      rw [hiw]
      have h1 : min (a.x + a.w) (b.x + b.w) ≤ a.x + a.w := min_le_left _ _
      have h2 : a.x ≤ max a.x b.x := le_max_left _ _
      linarith
    have hiwb : iw ≤ b.w := by
      rw [hiw]
      have h1 : min (a.x + a.w) (b.x + b.w) ≤ b.x + b.w := min_le_right _ _
      have h2 : b.x ≤ max a.x b.x := le_max_right _ _
      linarith
    have hiha : ih ≤ a.h := by
      rw [hih]
      have h1 : min (a.y + a.h) (b.y + b.h) ≤ a.y + a.h := min_le_left _ _
      have h2 : a.y ≤ max a.y b.y := le_max_left _ _
      linarith
    have hihb : ih ≤ b.h := by
      rw [hih]
      have h1 : min (a.y + a.h) (b.y + b.h) ≤ b.y + b.h := min_le_right _ _
      have h2 : b.y ≤ max a.y b.y := le_max_right _ _
      linarith
    have hia_pos : 0 < iw * ih := mul_pos hwpos hhpos
    have hia_le_a : iw * ih ≤ a.w * a.h :=
      mul_le_mul hiwa hiha (le_of_lt hhpos) ha
    have hia_le_b : iw * ih ≤ b.w * b.h :=
      mul_le_mul hiwb hihb (le_of_lt hhpos) hc
    have hunion_pos : 0 < a.w * a.h + b.w * b.h - iw * ih := by linarith
    rw [if_neg (ne_of_gt hunion_pos)]
    constructor
    · positivity
    · rw [div_le_one hunion_pos]
      linarith

theorem iou_self_pos (a : Rect) (hw : 0 < a.w) (hh : 0 < a.h) : iou a a = 1 := by
  unfold iou
  rcases intersectedQ_nonneg_spec a a (le_of_lt hw) (le_of_lt hh) (le_of_lt hw)
      (le_of_lt hh) with hnull | ⟨heq, -, -⟩
  · exfalso
    unfold Rect.intersectedQ at hnull
    simp only [min_eq_right (le_of_lt hw), min_eq_right (le_of_lt hh),
      max_eq_left (le_of_lt hw), max_eq_left (le_of_lt hh), add_zero] at hnull
    split_ifs at hnull with h1 h2 h3
    · rcases h1 with h | h | h | h <;> linarith
    · rcases h2 with h | h <;> linarith
    · rcases h3 with h | h <;> linarith
    · have := congrArg Rect.w hnull
      simp only [Rect.null] at this
      simp at this
      linarith [min_self (a.x + a.w), max_self a.x]
  · rw [heq]
    simp only [max_self, min_self]
    have hnotnull : ¬ (Rect.isNull ⟨a.x, a.y, a.x + a.w - a.x, a.y + a.h - a.y⟩ = true) := by
      simp only [Rect.isNull, decide_eq_true_eq]
      rintro ⟨h1, -⟩
      linarith
    rw [if_neg hnotnull]
    have harea : 0 < (a.x + a.w - a.x) * (a.y + a.h - a.y) := by
      have : a.x + a.w - a.x = a.w := by ring
      have h2 : a.y + a.h - a.y = a.h := by ring
      rw [this, h2]
      exact mul_pos hw hh
    have hsimp : a.w * a.h + a.w * a.h - (a.x + a.w - a.x) * (a.y + a.h - a.y)
        = (a.x + a.w - a.x) * (a.y + a.h - a.y) := by ring
    rw [hsimp, if_neg (ne_of_gt harea)]
    exact div_self (ne_of_gt harea)

theorem iou_disjoint (a b : Rect)
    (ha : 0 ≤ a.w) (hb : 0 ≤ a.h) (hc : 0 ≤ b.w) (hd : 0 ≤ b.h)
    (hdisj : a.x + a.w ≤ b.x ∨ b.x + b.w ≤ a.x ∨ a.y + a.h ≤ b.y ∨ b.y + b.h ≤ a.y) :
    iou a b = 0 := by
  have hnull : a.intersectedQ b = Rect.null := by
    unfold Rect.intersectedQ
    simp only [min_eq_right ha, min_eq_right hb, min_eq_right hc, min_eq_right hd,
      max_eq_left ha, max_eq_left hb, max_eq_left hc, max_eq_left hd, add_zero]
    split_ifs with h1 h2 h3
    · rfl
    · rfl
    · rfl
    · exfalso
      push_neg at h2 h3
      rcases hdisj with h | h | h | h
      · exact absurd h (not_le.mpr h2.2)
      · exact absurd h (not_le.mpr h2.1)
      · exact absurd h (not_le.mpr h3.2)
      · exact absurd h (not_le.mpr h3.1)
  unfold iou
  rw [hnull]
  simp [Rect.isNull, Rect.null]

/-- Complete characterisation of the `flag_predictions` inner loop:
starting from accumulator `(b, bg)`, either no kept label strictly
beats `b` and the accumulator survives, or the loop returns the last
strict improvement: the kept label strictly better than every kept
label before it (and than `b`) and at least as good as every kept label
after it. -/
theorem bestLoop_spec (p : PredItem) :
    ∀ (gs : List GTItem) (b : ℚ) (bg : Option GTItem),
      (bestLoop p gs b bg = (b, bg) ∧ ∀ g ∈ gs, g.kept = true → iou p.rect g.rect ≤ b) ∨
      (∃ l₁ g l₂, gs = l₁ ++ g :: l₂ ∧ g.kept = true ∧ b < iou p.rect g.rect ∧
        bestLoop p gs b bg = (iou p.rect g.rect, some g) ∧
        (∀ g' ∈ l₁, g'.kept = true → iou p.rect g'.rect < iou p.rect g.rect) ∧
        (∀ g' ∈ l₂, g'.kept = true → iou p.rect g'.rect ≤ iou p.rect g.rect)) := by
  intro gs
  induction gs with
  | nil => exact fun b bg => Or.inl ⟨rfl, by simp⟩
  | cons g rest ih =>
      intro b bg
      by_cases hk : g.kept
      · by_cases hlt : b < iou p.rect g.rect
        · have hstep : bestLoop p (g :: rest) b bg =
              bestLoop p rest (iou p.rect g.rect) (some g) := by
            simp [bestLoop, hk, hlt]
          rcases ih (iou p.rect g.rect) (some g) with ⟨heq, hall⟩ | ⟨l₁, g₀, l₂, hsplit, hg₀k, hg₀lt, heq, hbefore, hafter⟩
          · refine Or.inr ⟨[], g, rest, rfl, hk, hlt, ?_, by simp, hall⟩
            rw [hstep, heq]
          · refine Or.inr ⟨g :: l₁, g₀, l₂, by simp [hsplit], hg₀k, lt_trans hlt hg₀lt, ?_, ?_, hafter⟩
            · rw [hstep, heq]
            · intro g' hg' hg'k
              rcases List.mem_cons.mp hg' with rfl | hmem
              · exact hg₀lt
              · exact hbefore g' hmem hg'k
        · have hstep : bestLoop p (g :: rest) b bg = bestLoop p rest b bg := by
            simp [bestLoop, hk, hlt]
          rcases ih b bg with ⟨heq, hall⟩ | ⟨l₁, g₀, l₂, hsplit, hg₀k, hg₀lt, heq, hbefore, hafter⟩
          · refine Or.inl ⟨by rw [hstep, heq], ?_⟩
            intro g' hg' hg'k
            rcases List.mem_cons.mp hg' with rfl | hmem
            · exact le_of_not_lt hlt
            · exact hall g' hmem hg'k
          · refine Or.inr ⟨g :: l₁, g₀, l₂, by simp [hsplit], hg₀k, hg₀lt, ?_, ?_, hafter⟩
            · rw [hstep, heq]
            · intro g' hg' hg'k
              rcases List.mem_cons.mp hg' with rfl | hmem
              · exact lt_of_le_of_lt (le_of_not_lt hlt) hg₀lt
              · exact hbefore g' hmem hg'k
      · have hstep : bestLoop p (g :: rest) b bg = bestLoop p rest b bg := by
          simp [bestLoop, hk]
        rcases ih b bg with ⟨heq, hall⟩ | ⟨l₁, g₀, l₂, hsplit, hg₀k, hg₀lt, heq, hbefore, hafter⟩
        · refine Or.inl ⟨by rw [hstep, heq], ?_⟩
          intro g' hg' hg'k
          rcases List.mem_cons.mp hg' with rfl | hmem
          · exact absurd hg'k (by simpa using hk)
          · exact hall g' hmem hg'k
        · refine Or.inr ⟨g :: l₁, g₀, l₂, by simp [hsplit], hg₀k, hg₀lt, ?_, ?_, hafter⟩
          · rw [hstep, heq]
          · intro g' hg' hg'k
            rcases List.mem_cons.mp hg' with rfl | hmem
            · exact absurd hg'k (by simpa using hk)
            · exact hbefore g' hmem hg'k

theorem firstmax_decomp_unique {p : PredItem} {l₁ l₂ m₁ m₂ : List GTItem} {g g' : GTItem}
    (he : l₁ ++ g :: l₂ = m₁ ++ g' :: m₂)
    (hk : g.kept = true) (hk' : g'.kept = true)
    (hb : ∀ x ∈ l₁, x.kept = true → iou p.rect x.rect < iou p.rect g.rect)
    (ha : ∀ x ∈ l₂, x.kept = true → iou p.rect x.rect ≤ iou p.rect g.rect)
    (hb' : ∀ x ∈ m₁, x.kept = true → iou p.rect x.rect < iou p.rect g'.rect)
    (ha' : ∀ x ∈ m₂, x.kept = true → iou p.rect x.rect ≤ iou p.rect g'.rect) :
    g = g' := by
  rcases List.append_eq_append_iff.mp he with ⟨a, hm, hgl⟩ | ⟨c, hl, hgm⟩
  · cases a with
    | nil =>
        simp only [List.append_nil] at hm
        rw [List.nil_append] at hgl
        exact (List.cons.injEq _ _ _ _ ▸ hgl).1
    | cons h t =>
        exfalso
        have hg : g = h := by
          have := hgl
          simp only [List.cons_append] at this
          exact (List.cons.injEq _ _ _ _ ▸ this).1
        have hl₂ : l₂ = t ++ g' :: m₂ := by
          have := hgl
          simp only [List.cons_append] at this
          exact (List.cons.injEq _ _ _ _ ▸ this).2
        have hg'mem : g' ∈ l₂ := by
          rw [hl₂]
          exact List.mem_append_right _ (List.mem_cons_self _ _)
        have hgmem : g ∈ m₁ := by
          rw [hm, hg]
          exact List.mem_append_right _ (by rw [← hg]; rw [hg]; exact List.mem_cons_self _ _)
        have h1 := ha g' hg'mem hk'
        have h2 := hb' g hgmem hk
        exact absurd h1 (not_le.mpr h2)
  · cases c with
    | nil =>
        simp only [List.append_nil] at hl
        rw [List.nil_append] at hgm
        exact ((List.cons.injEq _ _ _ _ ▸ hgm).1).symm
    | cons h t =>
        exfalso
        have hg' : g' = h := by
          have := hgm
          simp only [List.cons_append] at this
          exact (List.cons.injEq _ _ _ _ ▸ this).1
        have hm₂ : m₂ = t ++ g :: l₂ := by
          have := hgm
          simp only [List.cons_append] at this
          exact (List.cons.injEq _ _ _ _ ▸ this).2
        have hgmem : g ∈ m₂ := by
          rw [hm₂]
          exact List.mem_append_right _ (List.mem_cons_self _ _)
        have hg'mem : g' ∈ l₁ := by
          rw [hl, hg']
          exact List.mem_append_right _ (by rw [← hg']; rw [hg']; exact List.mem_cons_self _ _)
        have h1 := ha' g hgmem hk
        have h2 := hb g' hg'mem hk'
        exact absurd h1 (not_le.mpr h2)

theorem disagreeB_iff (p : PredItem) (gts : List GTItem) :
    disagreeB p gts = true ↔ SpecDisagree p gts := by
  rcases bestLoop_spec p gts 0 none with ⟨heq, hall⟩ |
      ⟨l₁, g, l₂, hsplit, hk, hpos, heq, hbefore, hafter⟩
  · constructor
    · intro _
      exact Or.inl hall
    · intro _
      simp [disagreeB, heq]
  · simp only [disagreeB, heq]
    have hne : iou p.rect g.rect ≠ 0 := ne_of_gt hpos
    simp only [hne, decide_False, Bool.false_or, decide_eq_true_eq]
    constructor
    · intro hmis
      exact Or.inr ⟨l₁, g, l₂, hsplit, hk, hpos, hbefore, hafter, hmis⟩
    · intro hspec
      rcases hspec with hleft | ⟨m₁, g', m₂, hsplit', hk', _, hbefore', hafter', hmis'⟩
      · exfalso
        have := hleft g (by rw [hsplit]; exact List.mem_append_right _ (List.mem_cons_self _ _)) hk
        exact absurd hpos (not_lt.mpr this)
      · have : g = g' := firstmax_decomp_unique (hsplit ▸ hsplit')
          hk hk' hbefore hafter hbefore' hafter'
        rw [this]
        exact hmis'

theorem bestLoop_skip_unkept (p : PredItem) {g : GTItem} (hg : g.kept = false) :
    ∀ (pre post : List GTItem) (b : ℚ) (bg : Option GTItem),
      bestLoop p (pre ++ g :: post) b bg = bestLoop p (pre ++ post) b bg := by
  intro pre
  induction pre with
  | nil =>
      intro post b bg
      simp [bestLoop, hg]
  | cons c cs ih =>
      intro post b bg
      by_cases hc : c.kept
      · by_cases hlt : b < iou p.rect c.rect
        · simp [bestLoop, hc, hlt, ih]
        · simp [bestLoop, hc, hlt, ih]
      · simp [bestLoop, hc, ih]

theorem disagreeB_skip_unkept (p : PredItem) {g : GTItem} (hg : g.kept = false)
    (pre post : List GTItem) :
    disagreeB p (pre ++ g :: post) = disagreeB p (pre ++ post) := by
  unfold disagreeB
  rw [bestLoop_skip_unkept p hg pre post 0 none]

theorem seed_preserves (src_files : List (String × String)) :
    ∀ (tgt : DirFS) (n : String) (c : String), tgt n = some c →
      seed_corrected_directory src_files tgt n = some c := by
  induction src_files with
  | nil => intro tgt n c h; exact h
  | cons f fs ih =>
      intro tgt n c h
      show seed_corrected_directory fs
        (if isTxtName f.1 ∧ tgt f.1 = none then
          fun m => if m = f.1 then some f.2 else tgt m
         else tgt) n = some c
      split_ifs with hcond
      · apply ih
        by_cases hn : n = f.1
        · exact absurd (hn ▸ h) (by rw [hcond.2]; simp)
        · simpa [hn] using h
      · exact ih tgt n c h

theorem seed_covers (src_files : List (String × String)) :
    ∀ (tgt : DirFS) (f : String × String), f ∈ src_files → isTxtName f.1 →
      (seed_corrected_directory src_files tgt f.1).isSome := by
  induction src_files with
  | nil => intro tgt f hf; simp at hf
  | cons g gs ih =>
      intro tgt f hf htxt
      rcases List.mem_cons.mp hf with rfl | hmem
      · show (seed_corrected_directory gs
          (if isTxtName f.1 ∧ tgt f.1 = none then
            fun m => if m = f.1 then some f.2 else tgt m
           else tgt) f.1).isSome
        split_ifs with hcond
        · have : (fun m => if m = f.1 then some f.2 else tgt m) f.1 = some f.2 := by simp
          rw [seed_preserves gs _ f.1 f.2 this]
          simp
        · have : ∃ c, tgt f.1 = some c := by
            rcases h : tgt f.1 with _ | c
            · exact absurd ⟨htxt, h⟩ hcond
            · exact ⟨c, rfl⟩
          obtain ⟨c, hc⟩ := this
          rw [seed_preserves gs tgt f.1 c hc]
          simp
      · exact ih _ f hmem htxt

theorem seed_noop (src_files : List (String × String)) :
    ∀ (tgt : DirFS), (∀ f ∈ src_files, isTxtName f.1 → (tgt f.1).isSome) →
      seed_corrected_directory src_files tgt = tgt := by
  induction src_files with
  | nil => intro tgt _; rfl
  | cons f fs ih =>
      intro tgt h
      show seed_corrected_directory fs
        (if isTxtName f.1 ∧ tgt f.1 = none then
          fun m => if m = f.1 then some f.2 else tgt m
         else tgt) = tgt
      have hcond : ¬ (isTxtName f.1 ∧ tgt f.1 = none) := by
        rintro ⟨htxt, hnone⟩
        have := h f (List.mem_cons_self _ _) htxt
        rw [hnone] at this
        simp at this
      rw [if_neg hcond]
      exact ih tgt (fun g hg => h g (List.mem_cons_of_mem _ hg))

theorem seed_idempotent (src_files : List (String × String)) (tgt : DirFS) :
    seed_corrected_directory src_files (seed_corrected_directory src_files tgt) =
      seed_corrected_directory src_files tgt :=
  seed_noop src_files _ (fun f hf htxt => seed_covers src_files tgt f hf htxt)

theorem seed_no_new (src_files : List (String × String)) :
    ∀ (tgt : DirFS) (n : String), tgt n = none →
      (∀ c : String, (n, c) ∈ src_files → ¬ isTxtName n = true) →
      seed_corrected_directory src_files tgt n = none := by
  induction src_files with
  | nil => intro tgt n h _; exact h
  | cons f fs ih =>
      intro tgt n h hnot
      show seed_corrected_directory fs
        (if isTxtName f.1 ∧ tgt f.1 = none then
          fun m => if m = f.1 then some f.2 else tgt m
         else tgt) n = none
      split_ifs with hcond
      · apply ih
        · by_cases hn : n = f.1
          · exfalso
            have : (n, f.2) ∈ f :: fs := by
              rw [hn]
              exact List.mem_cons_self _ _
            exact hnot f.2 this (hn ▸ hcond.1)
          · simpa [hn] using h
        · intro c hc
          exact hnot c (List.mem_cons_of_mem _ hc)
      · exact ih tgt n h (fun c hc => hnot c (List.mem_cons_of_mem _ hc))

theorem filterMap_if_eq_filter_map {α β : Type} (f : α → β) (p : α → Bool) (l : List α) :
    l.filterMap (fun a => if p a then some (f a) else none) = (l.filter p).map f := by
  induction l with
  | nil => rfl
  | cons a as ih =>
      by_cases hp : p a
      · simp [List.filterMap_cons, List.filter_cons, hp, ih]
      · simp [List.filterMap_cons, List.filter_cons, hp, ih]

theorem collect_lines_eq (s : Session) :
    collect_lines s = keptLabelLines s ++ acceptedPredLines s := by
  unfold collect_lines keptLabelLines acceptedPredLines
  rw [filterMap_if_eq_filter_map LabelSt.line (fun l => l.kept) s.labels,
    filterMap_if_eq_filter_map PredSt.line (fun p => p.accepted) s.preds]

theorem replay_line_blank {raw : Line} (h : tokenize raw = []) :
    replay_line raw = Except.ok none := by
  unfold replay_line
  rw [if_pos ((pyStrip_eq_nil_iff raw).mpr ((tokenize_eq_nil_iff raw).mp h))]

theorem replay_line_tokens (raw : Line) (hne : tokenize raw ≠ []) :
    replay_line raw =
      (if 6 ≤ (tokenize raw).length then
        match parseFloatTok ((tokenize raw).getD 5 []) with
        | some c => Except.ok (some (unwords ((tokenize raw).take 5), c))
        | none => Except.error ()
      else Except.ok (some (unwords ((tokenize raw).take 5), 0))) := by
  unfold replay_line
  have hs : ¬ pyStrip raw = [] := by
    intro h
    exact hne (by rw [← tokenize_pyStrip raw, h]; rfl)
  rw [if_neg hs]
  simp only [tokenize_pyStrip]

theorem replay_line_short {raw : Line} {ts : List Line} (h : tokenize raw = ts)
    (hne : ts ≠ []) (hlen : ts.length < 6) :
    replay_line raw = Except.ok (some (unwords ts, 0)) := by
  rw [replay_line_tokens raw (h ▸ hne), if_neg (by rw [h]; omega)]
  rw [h, List.take_of_length_le (by omega)]

theorem replay_line_long {raw : Line} {ts : List Line} {c : ℚ} (h : tokenize raw = ts)
    (hlen : 6 ≤ ts.length)
    (hconf : parseFloatTok (ts.getD 5 []) = some c) :
    replay_line raw = Except.ok (some (unwords (ts.take 5), c)) := by
  have hne : ts ≠ [] := by intro hnil; rw [hnil] at hlen; simp at hlen
  rw [replay_line_tokens raw (h ▸ hne), if_pos (by rw [h]; omega), h, hconf]

theorem replay_line_long_bad {raw : Line} {ts : List Line} (h : tokenize raw = ts)
    (hlen : 6 ≤ ts.length)
    (hconf : parseFloatTok (ts.getD 5 []) = none) :
    replay_line raw = Except.error () := by
  have hne : ts ≠ [] := by intro hnil; rw [hnil] at hlen; simp at hlen
  rw [replay_line_tokens raw (h ▸ hne), if_pos (by rw [h]; omega), h, hconf]

theorem unwords_append_tok (ts : List Line) (hne : ts ≠ []) (u : Line) :
    unwords (ts ++ [u]) = unwords ts ++ ' ' :: u := by
  induction ts with
  | nil => exact absurd rfl hne
  | cons t rest ih =>
      cases rest with
      | nil => rfl
      | cons v vs =>
          have : unwords ((t :: v :: vs) ++ [u]) = t ++ ' ' :: unwords ((v :: vs) ++ [u]) := rfl
          rw [this, ih (by simp)]
          show t ++ ' ' :: (unwords (v :: vs) ++ ' ' :: u) = (t ++ ' ' :: unwords (v :: vs)) ++ ' ' :: u
          simp

theorem replay_side_line (l : Line) (conf : ℚ) (hwf : WellFormed5 l) :
    replay_line (l ++ ' ' :: fmt6 conf) = Except.ok (some (l, round6 conf)) := by
  obtain ⟨ts, hlen, hclean, rfl⟩ := hwf
  have htsne : ts ≠ [] := by intro h; rw [h] at hlen; simp at hlen
  have hall : ∀ t ∈ ts ++ [fmt6 conf], CleanTok t := by
    intro t ht
    rcases List.mem_append.mp ht with h | h
    · exact hclean t h
    · rw [List.mem_singleton.mp h]
      exact fmt6_clean conf
  have htok : tokenize (unwords ts ++ ' ' :: fmt6 conf) = ts ++ [fmt6 conf] := by
    rw [← unwords_append_tok ts htsne (fmt6 conf)]
    exact tokenize_unwords hall (by simp)
  have hget : (ts ++ [fmt6 conf]).getD 5 [] = fmt6 conf := by
    have h5 : (ts ++ [fmt6 conf])[5]? = some (fmt6 conf) := by
      rw [List.getElem?_append_right (by omega)]
      rw [hlen]
      rfl
    simp [List.getD, h5]
  have htake : (ts ++ [fmt6 conf]).take 5 = ts := by
    rw [← hlen, List.take_left]
  rw [replay_line_long htok (by simp [hlen]) (by rw [hget]; exact parseFloatTok_fmt6 conf),
    htake]

theorem replay_roundtrip (preds : List (Line × ℚ))
    (hwf : ∀ p ∈ preds, WellFormed5 p.1) :
    replay_mode (some (write_side_file preds)) =
      Except.ok (preds.map (fun p => (p.1, round6 p.2))) := by
  show replay_file (write_side_file preds) = _
  induction preds with
  | nil => rfl
  | cons p ps ih =>
      have hp := hwf p (List.mem_cons_self _ _)
      have hrest := ih (fun q hq => hwf q (List.mem_cons_of_mem _ hq))
      show replay_file ((p.1 ++ ' ' :: fmt6 p.2) :: write_side_file ps) = _
      unfold replay_file
      rw [replay_side_line p.1 p.2 hp, hrest]
      rfl

theorem fmtNat_clean (n : ℕ) : CleanTok (fmtNat n) :=
  ⟨fmtNat_ne_nil n, fun c hc => isDigit_not_isWhitespace (fmtNat_all_digits n c hc)⟩

theorem tokenize_rect_to_yolo_line (rect : Rect) (cls : ℕ) (img_w img_h : ℚ) :
    tokenize (rect_to_yolo_line rect cls img_w img_h) =
      [fmtNat cls,
       fmt6 ((rect.x + rect.w / 2) / img_w),
       fmt6 ((rect.y + rect.h / 2) / img_h),
       fmt6 (rect.w / img_w),
       fmt6 (rect.h / img_h)] := by
  apply tokenize_unwords
  · intro t ht
    simp only [List.mem_cons, List.not_mem_nil, or_false] at ht
    rcases ht with rfl | rfl | rfl | rfl | rfl
    · exact fmtNat_clean cls
    all_goals exact fmt6_clean _
  · simp

theorem parse_rect_to_yolo_line (rect : Rect) (cls : ℕ) (img_w img_h : ℚ) :
    parse_line (rect_to_yolo_line rect cls img_w img_h) =
      some ⟨cls,
        round6 ((rect.x + rect.w / 2) / img_w),
        round6 ((rect.y + rect.h / 2) / img_h),
        round6 (rect.w / img_w),
        round6 (rect.h / img_h)⟩ := by
  unfold parse_line
  rw [tokenize_rect_to_yolo_line]
  simp only [parseNatTok_fmtNat, parseFloatTok_fmt6]

/-- C1: an image is skipped (not queued for review) if and only if the
set of its prediction box-lines, confidence ignored, equals the set of
its label lines; any two multisets with equal underlying sets — both
empty included — give `should_queue = false`, and neither order nor
duplicate count of lines ever affects the decision; the queue keeps
exactly the images with differing sets. -/
theorem claim1_skip_iff_set_eq :
    (∀ (P : List (Line × ℚ)) (L : List Line),
      should_queue P L = false ↔ (P.map Prod.fst).toFinset = L.toFinset) ∧
    (∀ (P : List (Line × ℚ)) (L : List Line),
      (∀ s : Line, s ∈ P.map Prod.fst ↔ s ∈ L) → should_queue P L = false) ∧
    (should_queue [] [] = false) ∧
    (∀ (P P' : List (Line × ℚ)) (L L' : List Line),
      (∀ s : Line, s ∈ P.map Prod.fst ↔ s ∈ P'.map Prod.fst) →
      (∀ s : Line, s ∈ L ↔ s ∈ L') →
      should_queue P L = should_queue P' L') ∧
    (∀ (items : List (List (Line × ℚ) × List Line))
      (it : List (Line × ℚ) × List Line),
      it ∈ build_queue items ↔ it ∈ items ∧ should_queue it.1 it.2 = true) := by
  have hbase : ∀ (P : List (Line × ℚ)) (L : List Line),
      should_queue P L = false ↔ (P.map Prod.fst).toFinset = L.toFinset := by
    intro P L
    simp [should_queue, sets_match]
  refine ⟨hbase, ?_, ?_, ?_, ?_⟩
  · intro P L h
    rw [hbase]
    ext s
    simpa [List.mem_toFinset] using h s
  · rw [hbase]
    rfl
  · intro P P' L L' hP hL
    have h1 : (P.map Prod.fst).toFinset = (P'.map Prod.fst).toFinset := by
      ext s
      simpa [List.mem_toFinset] using hP s
    have h2 : L.toFinset = L'.toFinset := by
      ext s
      simpa [List.mem_toFinset] using hL s
    simp [should_queue, sets_match, h1, h2]
  · intro items it
    simp [build_queue, List.mem_filter]

/-- C3: `collect_lines` returns exactly the kept labels' lines in
stored order followed by the accepted predictions' lines in stored
order; in particular every kept-label line precedes every
accepted-prediction line in the result. -/
theorem claim3_collect_order :
    (∀ s : Session, collect_lines s = keptLabelLines s ++ acceptedPredLines s) ∧
    (∀ s : Session,
      (collect_lines s).take (keptLabelLines s).length = keptLabelLines s ∧
      (collect_lines s).drop (keptLabelLines s).length = acceptedPredLines s) := by
  refine ⟨collect_lines_eq, fun s => ?_⟩
  rw [collect_lines_eq]
  exact ⟨List.take_left _ _, List.drop_left _ _⟩

/-- C10: `flag_predictions` is a pure recomputation: it leaves every
prediction's line, rectangle, confidence and accepted flag unchanged,
leaves the ground-truth items untouched, and only rewrites each
prediction's pen to amber (disagreement) or red. -/
theorem claim10_flag_frame (s : WinState) :
    (flag_predictions s).gts = s.gts ∧
    (flag_predictions s).preds.map (fun p => (p.line, p.rect, p.conf, p.accepted)) =
      s.preds.map (fun p => (p.line, p.rect, p.conf, p.accepted)) ∧
    (flag_predictions s).preds.map PredItem.pen =
      s.preds.map (fun p => if disagreeB p s.gts then Pen.amber else Pen.red) := by
  refine ⟨rfl, ?_, ?_⟩
  · show (s.preds.map _).map _ = _
    rw [List.map_map]
    rfl
  · show (s.preds.map _).map _ = _
    rw [List.map_map]
    rfl

/-- C2: `flag_predictions` marks a prediction as a disagreement (amber
pen) exactly when no kept label has positive IoU with it (best IoU 0)
or when the kept label of maximum IoU — ties broken by the first in
stored order, labels with `kept = false` excluded from matching — has a
different class token; and an unkept label, wherever it sits and
whatever its overlap, never changes the decision. -/
theorem claim2_flag_best_match :
    (∀ (s : WinState) (i : ℕ) (hi : i < (flag_predictions s).preds.length)
        (hj : i < s.preds.length),
      (((flag_predictions s).preds.get ⟨i, hi⟩).pen = Pen.amber ↔
        SpecDisagree (s.preds.get ⟨i, hj⟩) s.gts)) ∧
    (∀ (p : PredItem) (pre post : List GTItem) (g : GTItem), g.kept = false →
      disagreeB p (pre ++ g :: post) = disagreeB p (pre ++ post)) := by
  constructor
  · intro s i hi hj
    have hmap : (flag_predictions s).preds = s.preds.map (fun p =>
        { p with pen := if disagreeB p s.gts then Pen.amber else Pen.red }) := rfl
    have hget : (flag_predictions s).preds.get ⟨i, hi⟩ =
        (fun p => { p with pen := if disagreeB p s.gts then Pen.amber else Pen.red })
          (s.preds.get ⟨i, hj⟩) := by
      simp [hmap]
    rw [hget]
    by_cases hd : disagreeB (s.preds.get ⟨i, hj⟩) s.gts
    · simp only [hd, if_true]
      simp only [true_iff]
      exact (disagreeB_iff _ _).mp hd
    · simp only [hd, if_false]
      constructor
      · intro h
        exact absurd h (by simp)
      · intro hspec
        exact absurd ((disagreeB_iff _ _).mpr hspec) hd
  · intro p pre post g hg
    exact disagreeB_skip_unkept p hg pre post

/-- C4: converting a valid record (positive width and height) to a
pixel rectangle (`yolo_line_to_rect` arithmetic) and back to a line
(`rect_to_yolo_line`), then parsing that line, reproduces the record
exactly up to six-decimal rounding: the class id is unchanged and each
of the four box fields moves by at most `1e-6`. -/
theorem claim4_codec_roundtrip (r : BoxRecord) (img_w img_h : ℚ)
    (hw : 0 < r.w) (hh : 0 < r.h) (hW : 0 < img_w) (hH : 0 < img_h) :
    parse_line (rect_to_yolo_line (recordToRect r img_w img_h) r.cls img_w img_h) =
      some ⟨r.cls, round6 r.cx, round6 r.cy, round6 r.w, round6 r.h⟩ ∧
    |round6 r.cx - r.cx| ≤ 1 / 1000000 ∧ |round6 r.cy - r.cy| ≤ 1 / 1000000 ∧
    |round6 r.w - r.w| ≤ 1 / 1000000 ∧ |round6 r.h - r.h| ≤ 1 / 1000000 := by
  have hWne : img_w ≠ 0 := ne_of_gt hW
  have hHne : img_h ≠ 0 := ne_of_gt hH
  constructor
  · rw [parse_rect_to_yolo_line]
    have hx : ((recordToRect r img_w img_h).x + (recordToRect r img_w img_h).w / 2) / img_w
        = r.cx := by
      unfold recordToRect
      field_simp
      ring
    have hy : ((recordToRect r img_w img_h).y + (recordToRect r img_w img_h).h / 2) / img_h
        = r.cy := by
      unfold recordToRect
      field_simp
      ring
    have hw' : (recordToRect r img_w img_h).w / img_w = r.w := by
      unfold recordToRect
      field_simp
    have hh' : (recordToRect r img_w img_h).h / img_h = r.h := by
      unfold recordToRect
      field_simp
    rw [hx, hy, hw', hh']
  · exact ⟨round6_close _, round6_close _, round6_close _, round6_close _⟩

/-- C4 witness: the round-trip theorem applied to the concrete record
`0 0.5 0.5 0.2 0.2` on a 100x100 image. -/
theorem claim4_codec_roundtrip_witness :
    (0 : ℚ) < 1/5 ∧ (0 : ℚ) < 100 ∧
    (parse_line (rect_to_yolo_line
        (recordToRect ⟨0, 1/2, 1/2, 1/5, 1/5⟩ 100 100) 0 100 100) =
      some ⟨0, round6 (1/2), round6 (1/2), round6 (1/5), round6 (1/5)⟩ ∧
    |round6 (1/2 : ℚ) - 1/2| ≤ 1 / 1000000 ∧ |round6 (1/2 : ℚ) - 1/2| ≤ 1 / 1000000 ∧
    |round6 (1/5 : ℚ) - 1/5| ≤ 1 / 1000000 ∧ |round6 (1/5 : ℚ) - 1/5| ≤ 1 / 1000000) :=
  ⟨by norm_num, by norm_num,
    claim4_codec_roundtrip ⟨0, 1/2, 1/2, 1/5, 1/5⟩ 100 100
      (by norm_num) (by norm_num) (by norm_num) (by norm_num)⟩

/-- C2 witness: both halves of the matching theorem instantiated on the
concrete scene — the pen characterisation at index 0, and the deletion
of a fully-overlapping same-class unkept label leaving the decision
unchanged. -/
theorem claim2_flag_best_match_witness :
    (((flag_predictions wWin).preds.get ⟨0, by decide⟩).pen = Pen.amber ↔
      SpecDisagree (wWin.preds.get ⟨0, by decide⟩) wWin.gts) ∧
    disagreeB wPred ([] ++ wGtUnkept :: []) = disagreeB wPred ([] ++ []) :=
  ⟨claim2_flag_best_match.1 wWin 0 (by decide) (by decide),
   claim2_flag_best_match.2 wPred [] [] wGtUnkept rfl⟩

/-- C5 counterexample: the claim quantifies over all rectangles, but
`QRectF` admits negative widths (created by resize drags or negative
width fields in a label line), `intersected` normalises them while the
union term `rect.width() * rect.height()` does not, and the quotient
leaves `[0, 1]`: these two overlapping rectangles — the second stored
with width `-5` — give `iou = -1.0`. -/
theorem claim5_iou_counterexample :
    iou ⟨-5, 0, 5, 10⟩ ⟨0, 0, -5, 10⟩ = -1 ∧
    ¬ (0 ≤ iou ⟨-5, 0, 5, 10⟩ ⟨0, 0, -5, 10⟩) := by
  have h : iou ⟨-5, 0, 5, 10⟩ ⟨0, 0, -5, 10⟩ = -1 := by
    norm_num [iou, Rect.intersectedQ, Rect.isNull, Rect.null, min_def, max_def]
  exact ⟨h, by rw [h]; norm_num⟩

/-- A rectangle with a zero stored width or height is empty in that
dimension, so Qt's `intersected` takes its null branch and `iou`
returns 0.0 without ever reaching the division. -/
theorem iou_zero_dim (a b : Rect)
    (h : a.w = 0 ∨ a.h = 0 ∨ b.w = 0 ∨ b.h = 0) : iou a b = 0 := by
  have hnull : a.intersectedQ b = Rect.null := by
    simp only [Rect.intersectedQ]
    split_ifs with h1 h2 h3
    · rfl
    · rfl
    · rfl
    · exfalso
      push_neg at h1
      rcases h with h | h | h | h
      · exact h1.1 (by rw [h]; simp)
      · exact h1.2.1 (by rw [h]; simp)
      · exact h1.2.2.1 (by rw [h]; simp)
      · exact h1.2.2.2 (by rw [h]; simp)
  unfold iou
  rw [hnull]
  simp [Rect.isNull, Rect.null]

/-- With nonnegative dimensions, a zero union area
(`rect1.width()*rect1.height() + rect2.width()*rect2.height()` with no
overlap to subtract) forces both rectangles degenerate, and `iou`
returns exactly 0.0 — the division-by-zero guard case of the claim. -/
theorem iou_zero_union (a b : Rect)
    (ha : 0 ≤ a.w) (hb : 0 ≤ a.h) (hc : 0 ≤ b.w) (hd : 0 ≤ b.h)
    (hu : a.w * a.h + b.w * b.h = 0) : iou a b = 0 := by
  have haarea : a.w * a.h = 0 := by nlinarith [mul_nonneg ha hb, mul_nonneg hc hd]
  rcases mul_eq_zero.mp haarea with h | h
  · exact iou_zero_dim a b (Or.inl h)
  · exact iou_zero_dim a b (Or.inr (Or.inl h))

/-- C5 (amended): for rectangles with nonnegative stored width and
height — every rectangle the claim's reading of "rectangle" intends —
`iou` lies in `[0, 1]`, is exactly 0 for non-overlapping rectangles,
exactly 0 when the union area is 0 (equivalently when either rectangle
has a zero dimension — the degenerate/zero-size guard never divides by
zero), and `iou(A, A) = 1` for any non-degenerate `A`. -/
theorem claim5_iou_bounds :
    (∀ a b : Rect, 0 ≤ a.w → 0 ≤ a.h → 0 ≤ b.w → 0 ≤ b.h →
      (0 ≤ iou a b ∧ iou a b ≤ 1) ∧
      (a.x + a.w ≤ b.x ∨ b.x + b.w ≤ a.x ∨ a.y + a.h ≤ b.y ∨ b.y + b.h ≤ a.y →
        iou a b = 0) ∧
      (a.w * a.h + b.w * b.h = 0 → iou a b = 0) ∧
      (a.w = 0 ∨ a.h = 0 ∨ b.w = 0 ∨ b.h = 0 → iou a b = 0)) ∧
    (∀ a : Rect, 0 < a.w → 0 < a.h → iou a a = 1) :=
  ⟨fun a b ha hb hc hd =>
    ⟨iou_nonneg_le_one a b ha hb hc hd,
     fun hdisj => iou_disjoint a b ha hb hc hd hdisj,
     fun hu => iou_zero_union a b ha hb hc hd hu,
     fun hdim => iou_zero_dim a b hdim⟩,
   fun a hw hh => iou_self_pos a hw hh⟩

/-- C5 witness: the bounds theorem on two overlapping squares, the
zero-union case on two degenerate rectangles (both areas 0, so the
union is 0 and the guard, not the division, produces the result), and
the self case. -/
theorem claim5_iou_bounds_witness :
    (0 ≤ iou ⟨0, 0, 2, 2⟩ ⟨1, 1, 2, 2⟩ ∧ iou ⟨0, 0, 2, 2⟩ ⟨1, 1, 2, 2⟩ ≤ 1) ∧
    iou ⟨0, 0, 10, 0⟩ ⟨2, -2, 0, 10⟩ = 0 ∧
    iou ⟨0, 0, 3, 4⟩ ⟨0, 0, 3, 4⟩ = 1 :=
  ⟨(claim5_iou_bounds.1 ⟨0, 0, 2, 2⟩ ⟨1, 1, 2, 2⟩
      (by decide) (by decide) (by decide) (by decide)).1,
   (claim5_iou_bounds.1 ⟨0, 0, 10, 0⟩ ⟨2, -2, 0, 10⟩
      (by decide) (by decide) (by decide) (by decide)).2.2.1 (by norm_num),
   claim5_iou_bounds.2 ⟨0, 0, 3, 4⟩ (by decide) (by decide)⟩

/-- C6 counterexample: a side-file line with fewer than 6 tokens is NOT
reproduced "as the line itself": `" ".join(parts[:5])` rejoins the
tokens with single spaces, so the two-token line `"0  1"` (two spaces)
comes back as `"0 1"`. -/
theorem claim6_replay_counterexample :
    replay_line ("0  1").toList = Except.ok (some (("0 1").toList, 0)) ∧
    ("0 1").toList ≠ ("0  1").toList :=
  ⟨rfl, by decide⟩

/-- C6 (amended): an absent side file yields the empty prediction set;
a non-blank line with 6 or more whitespace tokens yields the first five
tokens rejoined by single spaces with the 6th token parsed as the
confidence; a non-blank line with fewer than 6 tokens yields its tokens
rejoined by single spaces (the line itself exactly when its separators
were single spaces) with confidence 0.0; and replay applied to the side
file written by a live-mode run returns exactly the written box lines —
every live-written line is single-space-joined from five clean tokens —
with each confidence rounded to the six decimals that were stored. -/
theorem claim6_replay :
    (replay_mode none = Except.ok []) ∧
    (∀ raw : Line, tokenize raw = [] → replay_line raw = Except.ok none) ∧
    (∀ (raw : Line) (ts : List Line), tokenize raw = ts → ts ≠ [] → ts.length < 6 →
      replay_line raw = Except.ok (some (unwords ts, 0))) ∧
    (∀ (raw : Line) (ts : List Line) (c : ℚ), tokenize raw = ts → 6 ≤ ts.length →
      parseFloatTok (ts.getD 5 []) = some c →
      replay_line raw = Except.ok (some (unwords (ts.take 5), c))) ∧
    (∀ preds : List (Line × ℚ), (∀ p ∈ preds, WellFormed5 p.1) →
      replay_mode (some (write_side_file preds)) =
        Except.ok (preds.map (fun p => (p.1, round6 p.2)))) :=
  ⟨rfl,
   fun _ h => replay_line_blank h,
   fun _ _ h hne hlen => replay_line_short h hne hlen,
   fun _ _ _ h hlen hconf => replay_line_long h hlen hconf,
   fun preds hwf => replay_roundtrip preds hwf⟩

/-- C6 witness: the short-line clause on the two-token line `"0 1"`,
and the live-write/replay round trip on one concrete prediction. -/
theorem claim6_replay_witness :
    replay_line (("0 1").toList) = Except.ok (some (unwords [['0'], ['1']], 0)) ∧
    replay_mode (some (write_side_file [(("0 0.5 0.5 0.2 0.2").toList, 9/10)])) =
      Except.ok ([(("0 0.5 0.5 0.2 0.2").toList, 9/10)].map
        (fun p => (p.1, round6 p.2))) :=
  ⟨claim6_replay.2.2.1 (("0 1").toList) [['0'], ['1']] (by decide) (by decide) (by decide),
   claim6_replay.2.2.2.2 [(("0 0.5 0.5 0.2 0.2").toList, 9/10)]
     (by
       intro p hp
       rw [List.mem_singleton.mp hp]
       exact ⟨[['0'], ("0.5").toList, ("0.5").toList, ("0.2").toList, ("0.2").toList],
         by decide, by decide, by decide⟩)⟩

/-- C7: seeding copies a source `*.txt` file into the target directory
exactly when no file of that name exists there: an existing target file
is never overwritten, every source text file ends up present, nothing
else appears, and a second call — even after the reviewer edits a
target file — is a no-op on the already-seeded directory. -/
theorem claim7_seeding :
    (∀ (src_files : List (String × String)) (tgt : DirFS),
      seed_corrected_directory src_files (seed_corrected_directory src_files tgt) =
        seed_corrected_directory src_files tgt) ∧
    (∀ (src_files : List (String × String)) (tgt : DirFS) (n c : String),
      tgt n = some c → seed_corrected_directory src_files tgt n = some c) ∧
    (∀ (src_files : List (String × String)) (tgt : DirFS) (f : String × String),
      f ∈ src_files → isTxtName f.1 →
      (seed_corrected_directory src_files tgt f.1).isSome) ∧
    (∀ (src_files : List (String × String)) (tgt : DirFS) (n : String),
      tgt n = none → (∀ c : String, (n, c) ∈ src_files → ¬ isTxtName n = true) →
      seed_corrected_directory src_files tgt n = none) :=
  ⟨seed_idempotent,
   fun src tgt n c h => seed_preserves src tgt n c h,
   fun src tgt f hf htxt => seed_covers src tgt f hf htxt,
   fun src tgt n h hnot => seed_no_new src tgt n h hnot⟩

/-- C7 witness: seeding over an already-present (edited) target file
keeps the edit, and one fresh source file gets copied. -/
theorem claim7_seeding_witness :
    seed_corrected_directory [("a.txt", "orig")] wTgt "a.txt" = some "edited" ∧
    (seed_corrected_directory [("b.txt", "new")] wTgt "b.txt").isSome :=
  ⟨claim7_seeding.2.1 [("a.txt", "orig")] wTgt "a.txt" "edited" (by decide),
   claim7_seeding.2.2.1 [("b.txt", "new")] wTgt ("b.txt", "new")
     (List.mem_singleton.mpr rfl) (by decide)⟩

/-- C8 counterexample: parsing the two-token line `"0 0.5"` does not
fail — no `MalformedLineError` exists anywhere in the source — and the
line is not skipped: `yolo_line_to_rect` silently returns the
default-constructed empty rectangle and the caller builds a box from
it. -/
theorem claim8_parse_counterexample :
    yolo_line_to_rect (("0 0.5").toList) 100 100 = some Rect.null ∧
    (yolo_line_to_rect (("0 0.5").toList) 100 100).isSome := by
  constructor <;> rfl

/-- C8 (amended): `yolo_line_to_rect` signals a wrong token count by
returning the empty rectangle `QRectF()` — the line is not skipped and
nothing is raised — while a failing numeric parse of any of the four
box tokens raises an uncaught `ValueError` (modelled `none`), aborting
processing rather than skipping the line and continuing. -/
theorem claim8_parse_malformed :
    (∀ (l : Line) (img_w img_h : ℚ), (tokenize l).length ≠ 5 →
      yolo_line_to_rect l img_w img_h = some Rect.null) ∧
    (∀ (l : Line) (img_w img_h : ℚ) (c xc yc w h : Line),
      tokenize l = [c, xc, yc, w, h] →
      (parseFloatTok xc = none ∨ parseFloatTok yc = none ∨
        parseFloatTok w = none ∨ parseFloatTok h = none) →
      yolo_line_to_rect l img_w img_h = none) := by
  constructor
  · intro l img_w img_h hne
    unfold yolo_line_to_rect
    split
    · next x xc yc w h heq =>
        exact absurd (by rw [heq]; rfl) hne
    · rfl
  · intro l img_w img_h c xc yc w h htok hbad
    unfold yolo_line_to_rect
    rw [htok]
    rcases hx : parseFloatTok xc with _ | xv <;>
      rcases hy : parseFloatTok yc with _ | yv <;>
        rcases hw : parseFloatTok w with _ | wv <;>
          rcases hh : parseFloatTok h with _ | hv <;>
            simp_all

/-- C8 witness: the amended behaviour at two concrete lines — a
two-token line yields the empty rectangle, and a five-token line with
non-numeric fields yields the uncaught-exception outcome. -/
theorem claim8_parse_malformed_witness :
    yolo_line_to_rect (("0 0.5").toList) 10 10 = some Rect.null ∧
    yolo_line_to_rect (("0 a b c d").toList) 10 10 = none :=
  ⟨claim8_parse_malformed.1 (("0 0.5").toList) 10 10 (by decide),
   claim8_parse_malformed.2 (("0 a b c d").toList) 10 10 ['0'] ['a'] ['b'] ['c'] ['d']
     (by decide) (Or.inl (by decide))⟩

/-- A mouse press outside both resize handles of a `PredBox`: the
accepted flag flips, the same value lands in the shared dictionary,
`_resizing` clears, and nothing else changes. -/
theorem predMousePress_toggle (b : PredBoxItem) (pos : ℚ × ℚ)
    (hsr : startResize b.rect pos = none) :
    predMousePress b pos =
      { b with
        resizing := none
        accepted := ! b.accepted
        state := { b.state with accepted := ! b.accepted } } := by
  unfold predMousePress
  rw [hsr]

/-- The `GTBox` analogue of `predMousePress_toggle`. -/
theorem gtMousePress_toggle (b : GTBoxItem) (pos : ℚ × ℚ)
    (hsr : startResize b.rect pos = none) :
    gtMousePress b pos =
      { b with
        resizing := none
        kept := ! b.kept
        state := { b.state with kept := ! b.kept } } := by
  unfold gtMousePress
  rw [hsr]

/-- C9: a mouse press outside both resize handles toggles the box flag
and writes the same value into the shared state dictionary, leaves the
line string, the rectangle and the dictionary's line untouched, and a
second identical press restores the box to its original state — for
`PredBox` (accepted) and `GTBox` (kept) alike.  The press handler also
clears `_resizing`, which a box at rest already has cleared, and the
dictionary mirrors the flag at construction; both facts appear as
hypotheses. -/
theorem claim9_toggle_involution :
    (∀ (b : PredBoxItem) (pos : ℚ × ℚ),
      startResize b.rect pos = none → b.resizing = none →
      b.state.accepted = b.accepted →
      (predMousePress b pos).accepted = ! b.accepted ∧
      (predMousePress b pos).state.accepted = ! b.accepted ∧
      (predMousePress b pos).line = b.line ∧
      (predMousePress b pos).rect = b.rect ∧
      (predMousePress b pos).state.line = b.state.line ∧
      predMousePress (predMousePress b pos) pos = b) ∧
    (∀ (g : GTBoxItem) (pos : ℚ × ℚ),
      startResize g.rect pos = none → g.resizing = none →
      g.state.kept = g.kept →
      (gtMousePress g pos).kept = ! g.kept ∧
      (gtMousePress g pos).state.kept = ! g.kept ∧
      (gtMousePress g pos).line = g.line ∧
      (gtMousePress g pos).rect = g.rect ∧
      (gtMousePress g pos).state.line = g.state.line ∧
      gtMousePress (gtMousePress g pos) pos = g) := by
  constructor
  · rintro ⟨⟨sl, sc, sa⟩, l, c, a, r, z⟩ pos hsr hrz hsync
    have h1 : predMousePress ⟨⟨sl, sc, sa⟩, l, c, a, r, z⟩ pos =
        ⟨⟨sl, sc, !a⟩, l, c, !a, r, none⟩ := predMousePress_toggle _ pos hsr
    have h2 : predMousePress ⟨⟨sl, sc, !a⟩, l, c, !a, r, none⟩ pos =
        ⟨⟨sl, sc, !(!a)⟩, l, c, !(!a), r, none⟩ := predMousePress_toggle _ pos hsr
    have hsync2 : sa = a := hsync
    have hrz2 : z = none := hrz
    refine ⟨by rw [h1], by rw [h1], by rw [h1], by rw [h1], by rw [h1], ?_⟩
    rw [h1, h2, Bool.not_not, hsync2, hrz2]
  · rintro ⟨⟨sl, sk⟩, l, k, r, z⟩ pos hsr hrz hsync
    have h1 : gtMousePress ⟨⟨sl, sk⟩, l, k, r, z⟩ pos =
        ⟨⟨sl, !k⟩, l, !k, r, none⟩ := gtMousePress_toggle _ pos hsr
    have h2 : gtMousePress ⟨⟨sl, !k⟩, l, !k, r, none⟩ pos =
        ⟨⟨sl, !(!k)⟩, l, !(!k), r, none⟩ := gtMousePress_toggle _ pos hsr
    have hsync2 : sk = k := hsync
    have hrz2 : z = none := hrz
    refine ⟨by rw [h1], by rw [h1], by rw [h1], by rw [h1], by rw [h1], ?_⟩
    rw [h1, h2, Bool.not_not, hsync2, hrz2]

/-- C9 witness: the toggle theorem at a concrete press point far from
both resize handles of both boxes. -/
theorem claim9_toggle_involution_witness :
    ((predMousePress wPredBox (100, 200)).accepted = ! wPredBox.accepted ∧
      (predMousePress wPredBox (100, 200)).state.accepted = ! wPredBox.accepted ∧
      (predMousePress wPredBox (100, 200)).line = wPredBox.line ∧
      (predMousePress wPredBox (100, 200)).rect = wPredBox.rect ∧
      (predMousePress wPredBox (100, 200)).state.line = wPredBox.state.line ∧
      predMousePress (predMousePress wPredBox (100, 200)) (100, 200) = wPredBox) ∧
    ((gtMousePress wGtBox (100, 200)).kept = ! wGtBox.kept ∧
      (gtMousePress wGtBox (100, 200)).state.kept = ! wGtBox.kept ∧
      (gtMousePress wGtBox (100, 200)).line = wGtBox.line ∧
      (gtMousePress wGtBox (100, 200)).rect = wGtBox.rect ∧
      (gtMousePress wGtBox (100, 200)).state.line = wGtBox.state.line ∧
      gtMousePress (gtMousePress wGtBox (100, 200)) (100, 200) = wGtBox) :=
  ⟨claim9_toggle_involution.1 wPredBox (100, 200)
     (by norm_num [startResize, wPredBox, abs_le]) rfl rfl,
   claim9_toggle_involution.2 wGtBox (100, 200)
     (by norm_num [startResize, wGtBox, abs_le]) rfl rfl⟩

/-- C1 witness: the skip decision on concrete multisets with different
order and duplicate counts but equal underlying sets — the image is
skipped. -/
theorem claim1_skip_iff_set_eq_witness :
    should_queue
      [(("0 1").toList, 9/10), (("2 3").toList, 1/2), (("0 1").toList, 0)]
      [("2 3").toList, ("0 1").toList, ("2 3").toList] = false :=
  claim1_skip_iff_set_eq.2.1 _ _ (by
    intro s
    simp only [List.map_cons, List.map_nil, List.mem_cons, List.not_mem_nil, or_false]
    tauto)
